import Mathlib

/-!
Verification of the property persistence and filtering pipeline of the
vue-cache-decorator repository (src/cache.ts).

JavaScript runtime values relevant to the library are modelled by `JsValue`:
scalars (`undefined`, `null`, numbers, strings, booleans) and plain objects,
where an object carries a numeric reference identity `id` (two object values
are "the same reference" exactly when their root ids coincide) and an ordered
own-property list.  Array-valued properties are not modelled; no claim
depends on them.  Numbers are modelled as integers (no claim depends on
non-integral or NaN arithmetic).
-/

namespace VueCache

inductive JsValue where
  | undef : JsValue
  | null : JsValue
  | num (n : Int) : JsValue
  | str (s : String) : JsValue
  | bool (b : Bool) : JsValue
  | obj (id : Nat) (fields : List (String × JsValue)) : JsValue

/-- JavaScript `typeof` on the modelled values (`typeof null` is `"object"`). -/
def jsTypeof : JsValue → String
  | .undef => "undefined"
  | .null => "object"
  | .num _ => "number"
  | .str _ => "string"
  | .bool _ => "boolean"
  | .obj _ _ => "object"

/-- JavaScript truthiness of the modelled values. -/
def truthy : JsValue → Bool
  | .undef => false
  | .null => false
  | .num n => n != 0
  | .str s => s != ""
  | .bool b => b
  | .obj _ _ => true

def isNull : JsValue → Bool
  | .null => true
  | _ => false

/-- `v == null` in the sense of the `??` operator: `null` or `undefined`. -/
def isNullish : JsValue → Bool
  | .null => true
  | .undef => true
  | _ => false

/-- JavaScript nullish coalescing `a ?? b`. -/
def jsCoalesce (a b : JsValue) : JsValue :=
  if isNullish a then b else a

mutual

/-- Structural (deep) equality of values, ignoring reference identities. -/
def deepEq : JsValue → JsValue → Bool
  | .undef, .undef => true
  | .null, .null => true
  | .num a, .num b => a == b
  | .str a, .str b => a == b
  | .bool a, .bool b => a == b
  | .obj _ fs, .obj _ gs => deepEqFields fs gs
  | _, _ => false

def deepEqFields : List (String × JsValue) → List (String × JsValue) → Bool
  | [], [] => true
  | (k1, v1) :: t1, (k2, v2) :: t2 => k1 == k2 && deepEq v1 v2 && deepEqFields t1 t2
  | _, _ => false

end

def optDeepEq : Option JsValue → Option JsValue → Bool
  | none, none => true
  | some a, some b => deepEq a b
  | _, _ => false

mutual

/-- All object reference identities occurring in a value. -/
def objIds : JsValue → List Nat
  | .obj id fs => id :: objIdsFields fs
  | _ => []

def objIdsFields : List (String × JsValue) → List Nat
  | [] => []
  | (_, v) :: t => objIds v ++ objIdsFields t

end

mutual

/-- `lodash.clonedeep`: a structurally equal copy in which every object node
is freshly allocated.  Allocation is modelled by a counter `n`: every object
in the result gets an identity `≥ n`, and the final counter is returned.
Scalars are returned unchanged (they have no reference identity). -/
def cloneDeep : JsValue → Nat → JsValue × Nat
  | .obj _ fs, n =>
    let r := cloneFields fs (n + 1)
    (.obj n r.1, r.2)
  | v, n => (v, n)

def cloneFields : List (String × JsValue) → Nat → List (String × JsValue) × Nat
  | [], n => ([], n)
  | (k, v) :: t, n =>
    let rv := cloneDeep v n
    let rt := cloneFields t rv.2
    ((k, rv.1) :: rt.1, rt.2)

end

/-! ## Configuration model (the `CacheOptions` types of the source)

A TypeScript `string | string[]` argument. -/

inductive StrOrList where
  | single (s : String) : StrOrList
  | list (l : List String) : StrOrList

/-- JavaScript truthiness of a `string | string[]` value: the empty string is
falsy, every array (even `[]`) is truthy. -/
def StrOrList.jsTruthy : StrOrList → Bool
  | .single s => s != ""
  | .list _ => true

/-- Truthiness of an optional `string | string[]` option field (an absent
field reads as `undefined`, which is falsy). -/
def optTruthy : Option StrOrList → Bool
  | none => false
  | some x => x.jsTruthy

/-- The option object accepted by the decorator (`CacheOptionsWithExcept` /
`CacheOptionsWithOnly` in the source).  The source type has exactly the
fields `globalDispatch`, `cacheKey`, `cacheStore`, and `except` or `only`;
it has no `deep` field.  `cacheStore` is externalized: the storage contents
relevant to a restore are passed to `createdHook` directly. -/
structure CacheOptions where
  globalDispatch : Option String
  cacheKey : Option String
  except : Option StrOrList
  only : Option StrOrList

/-- Truthiness of the result of `arr.find(...)` when used in a boolean
context: `undefined` (no hit) and a found empty string are both falsy. -/
def jsFoundTruthy : Option String → Bool
  | some s => s != ""
  | none => false

/-- JavaScript `delete value[k]`: removes the own property `k` of an object;
a no-op on primitives. -/
def deleteField : JsValue → String → JsValue
  | .obj id fs, k => .obj id (fs.filter (fun p => p.1 != k))
  | v, _ => v

/-- `Object.getOwnPropertyNames` restricted to the modelled values.  For a
plain object this is its key list.  For primitives the source only ever
follows it with `delete` on the primitive, which is a no-op, so returning
`[]` here yields the same final value as the JavaScript runtime. -/
def ownPropNames : JsValue → List String
  | .obj _ fs => fs.map Prod.fst
  | _ => []

/-- First own property named `k` in a field list (`fs[k]` read). -/
def getEntry (fs : List (String × JsValue)) (k : String) : Option JsValue :=
  (fs.find? (fun p => p.1 == k)).map Prod.snd

/-- Property read `v[k]` on a value: `none` models `undefined`/absent. -/
def getProp : JsValue → String → Option JsValue
  | .obj _ fs, k => getEntry fs k
  | _, _ => none

/-- `purgeExceptList` from src/cache.ts: deep-clone the value, then (when
both the `except` argument and the cloned value are truthy) delete each
listed field from the clone. -/
def purgeExceptList (value : JsValue) (except : Option StrOrList) (fresh : Nat) :
    JsValue :=
  let newValue := (cloneDeep value fresh).1
  if optTruthy except && truthy newValue then
    match except with
    | some (.list es) => es.foldl (fun acc e => deleteField acc e) newValue
    | some (.single e) => deleteField newValue e
    | none => newValue
  else newValue

/-- `purgeOnlyList` from src/cache.ts: deep-clone the value, then (when both
the `only` argument and the cloned value are truthy) delete every own
property that the `only` specification does not keep.  In the array case the
source keeps `p` when `only.find(o => o === p)` is truthy, so a listed empty
string name is still deleted. -/
def purgeOnlyList (value : JsValue) (only : Option StrOrList) (fresh : Nat) :
    JsValue :=
  let newValue := (cloneDeep value fresh).1
  if optTruthy only && truthy newValue then
    let props := ownPropNames newValue
    match only with
    | some (.list os) =>
      props.foldl
        (fun acc p =>
          if jsFoundTruthy (os.find? (fun o => o == p)) then acc
          else deleteField acc p)
        newValue
    | some (.single o) =>
      props.foldl (fun acc p => if p != o then deleteField acc p else acc) newValue
    | none => newValue
  else newValue

/-- One `target[k] = v` step of `Object.assign`: an existing key is updated
in place, a new key is appended. -/
def assignEntry (fs : List (String × JsValue)) (k : String) (v : JsValue) :
    List (String × JsValue) :=
  if fs.any (fun p => p.1 == k) then
    fs.map (fun p => if p.1 == k then (p.1, v) else p)
  else fs ++ [(k, v)]

/-- Own enumerable entries of a value as seen by `Object.assign`: an object
contributes its fields, a string its indexed characters, every other
primitive (and `null`/`undefined`) contributes nothing. -/
def ownEnumerableEntries : JsValue → List (String × JsValue)
  | .obj _ fs => fs
  | .str s => s.toList.enum.map (fun p => (toString p.1, JsValue.str (String.singleton p.2)))
  | _ => []

/-- `Object.assign(target, src)` on a field-list target. -/
def objAssign (target : List (String × JsValue)) (src : JsValue) :
    List (String × JsValue) :=
  (ownEnumerableEntries src).foldl (fun acc p => assignEntry acc p.1 p.2) target

/-- `merge` from src/cache.ts:
`Object.assign(Object.assign({}, a), b)` — the `{}` literal allocates one
new object, whose identity is modelled by `fresh`; field values are shared
(shallow copy). -/
def merge (a b : JsValue) (fresh : Nat) : JsValue :=
  .obj fresh (objAssign (objAssign [] a) b)

/-- `simpleTypes` from src/cache.ts: non object or array types. -/
def simpleTypes : List String := ["undefined", "number", "string", "boolean"]

/-! ## Restore at component creation -/

/-- The raw text the storage adapter holds under the resolved key: either
text that parses to a JSON value, or text that is not valid JSON. -/
inductive StoredText where
  | valid (v : JsValue) : StoredText
  | invalid : StoredText

/-- `JSON.parse(store.getItem(key))`.  `getItem` returns `null` when the key
is absent, and `JSON.parse(null)` coerces its argument to the string
`"null"`, which parses to `null`.  Text that is not valid JSON makes
`JSON.parse` throw (modelled by `Except.error`). -/
def jsonParse : Option StoredText → Except Unit JsValue
  | none => .ok .null
  | some (.valid v) => .ok v
  | some .invalid => .error ()

/-- The `options.created` hook installed by the decorator (src/cache.ts
lines 139–153), returning the final value assigned to the property, or an
error when `JSON.parse` throws (the source has no try/catch around it).
`stored` is the storage content under the property's resolved key and
`currentValue` the property's default value at creation time.  The
transient `$set(this, key, {})` performed when the default is falsy is
immediately overwritten by the subsequent `$set` of the merge result (which
uses the previously captured `currentValue`), so it does not affect the
final value; `fresh` is the identity of the object allocated by `merge`. -/
def createdHook (stored : Option StoredText) (currentValue : JsValue) (fresh : Nat) :
    Except Unit JsValue :=
  match jsonParse stored with
  | .error e => .error e
  | .ok parsed =>
    let v := jsCoalesce parsed currentValue
    if simpleTypes.contains (jsTypeof currentValue) || isNull v then
      .ok v
    else
      .ok (merge currentValue v fresh)

def isOkResult : Except Unit JsValue → Bool
  | .ok _ => true
  | .error _ => false

/-! ## The value filter selected by the decorator -/

/-- The `modifier` selected in src/cache.ts lines 103–113: `purgeExceptList`
when `except` is truthy, else `purgeOnlyList` when `only` is truthy, else
the identity `v => v` (no copy is made in that branch). -/
def applyModifier (cacheOptions : Option CacheOptions) (v : JsValue) (fresh : Nat) :
    JsValue :=
  match cacheOptions with
  | none => v
  | some o =>
    if optTruthy o.except then purgeExceptList v o.except fresh
    else if optTruthy o.only then purgeOnlyList v o.only fresh
    else v

/-- No filtering configured (`FilterSpec::None`): no truthy `except` or
`only` option. -/
def noFilterConfigured : Option CacheOptions → Bool
  | none => true
  | some o => !optTruthy o.except && !optTruthy o.only

/-- The condition under which src/cache.ts logs
"'except' and 'only' options are mutually exclusive". -/
def bothFiltersConfigured : Option CacheOptions → Bool
  | none => false
  | some o => optTruthy o.except && optTruthy o.only

/-- Whether two values are the same object reference. -/
def sameRef : JsValue → JsValue → Bool
  | .obj i _, .obj j _ => i == j
  | _, _ => false

/-! ## Key resolution (`makeKey`, src/cache.ts lines 21–33) -/

/-- The literal part of the regex pattern (vue-component-, digits, -). -/
def vcPat : List Char := "vue-component-".toList

/-- Remove a leading literal run `p` from `cs`, or fail. -/
def dropLead : List Char → List Char → Option (List Char)
  | [], cs => some cs
  | _ :: _, [] => none
  | p :: ps, c :: cs => if p == c then dropLead ps cs else none

/-- Try to match vue-component-<digits>- at the head of `cs`; on success
return what follows the match.  `\d+` is greedy, and since the character
after a maximal digit run is never a digit, greedy matching without
backtracking is exact here. -/
def matchVcAt (cs : List Char) : Option (List Char) :=
  match dropLead vcPat cs with
  | none => none
  | some rest =>
    if (rest.takeWhile Char.isDigit).isEmpty then none
    else
      match rest.dropWhile Char.isDigit with
      | '-' :: tail => some tail
      | _ => none

/-- `String.prototype.replace` with the non-global regex
matching vue-component-<digits>- and replacement the empty string: delete the leftmost match,
anywhere in the string, leaving the rest unchanged. -/
def replaceVcFirst : List Char → List Char
  | [] => []
  | c :: cs =>
    match matchVcAt (c :: cs) with
    | some tail => tail
    | none => c :: replaceVcFirst cs

/-- Whether vue-component-<digits>- matches anywhere in `cs`. -/
def hasVcMatch : List Char → Bool
  | [] => false
  | c :: cs => (matchVcAt (c :: cs)).isSome || hasVcMatch cs

/-- The tag-derived branch of `makeKey` (src lines 23–32): a `null`,
`undefined` or empty tag is falsy, so the bare property name is returned
(after a console warning); otherwise the first `vue-component-<digits>-`
match is removed from the tag, falling back to the raw tag when the removal
leaves nothing, and the key is `name + "[" + key + "]"`. -/
def makeKeyFromTag (tag : Option String) (key : String) : String :=
  match tag with
  | none => key
  | some t =>
    if t == "" then key
    else
      let name := String.mk (replaceVcFirst t.toList)
      let name := if name.length == 0 then t else name
      name ++ "[" ++ key ++ "]"

/-- `makeKey` from src/cache.ts: `if (options?.cacheKey) return
options.cacheKey;` — the explicit key is used only when truthy (an empty
string `cacheKey` falls through to derivation), else the key is derived
from the component tag. -/
def makeKey (options : Option CacheOptions) (tag : Option String) (key : String) :
    String :=
  match options.bind (fun o => o.cacheKey) with
  | some ck => if ck == "" then makeKeyFromTag tag key else ck
  | none => makeKeyFromTag tag key

/-- Modelled from the spec: claim C6's reading of key derivation, in which
only a `vue-component-<digits>-` occurrence at the very start of the tag
(a true prefix) is stripped, and a configured `cacheKey` is returned
unchanged whenever present.  Used solely to compare the claim's wording
with the source behaviour. -/
def specResolveKey (explicitKey : Option String) (tag : Option String) (key : String) :
    String :=
  match explicitKey with
  | some ck => ck
  | none =>
    match tag with
    | none => key
    | some t =>
      let stripped :=
        match matchVcAt t.toList with
        | some tail => String.mk tail
        | none => t
      let name := if stripped = "" then t else stripped
      name ++ "[" ++ key ++ "]"

/-! ## Watcher registration (src/cache.ts lines 94–102 and 123–137) -/

/-- A single Vue watcher record; `hid` identifies the handler function and
`deep`/`immediate` are its flags. -/
structure WatchHandlerEntry where
  deep : Bool
  immediate : Bool
  hid : Nat
deriving DecidableEq

/-- The value of `options.watch[key]` before the decorator touches it:
absent, a single watcher object, an array of watchers, a handler function,
or a method-name string — all the forms Vue accepts. -/
inductive WatchDecl where
  | undef : WatchDecl
  | objW (w : WatchHandlerEntry) : WatchDecl
  | arrW (ws : List WatchHandlerEntry) : WatchDecl
  | fnW (hid : Nat) : WatchDecl
  | strW (s : String) : WatchDecl
deriving DecidableEq

/-- Lines 98–102: a non-array object watcher is wrapped in a one-element
array, an absent entry becomes `[]`; every other form (array, function,
string) is left as it is — `typeof` of a function is `"function"`, not
`"object"`, so the function form is not wrapped. -/
def normalizeWatch : WatchDecl → WatchDecl
  | .objW w => .arrW [w]
  | .undef => .arrW []
  | d => d

/-- The watcher object pushed at line 124: `deep` and `immediate` are the
literals `true` and `false` — no field of the options object is consulted
(the source `CacheOptions` type has no `deep` field at all). -/
def cacheWatchEntry (cacheOptions : Option CacheOptions) (hid : Nat) :
    WatchHandlerEntry :=
  { deep := true, immediate := false, hid := hid }

/-- `(watch[key] as WatchOptionsWithHandler[]).push(entry)`: appends when
the normalized entry is an array; on a function or string value `.push` is
not a function and the call throws a `TypeError` (modelled by
`Except.error`). -/
def pushWatch : WatchDecl → WatchHandlerEntry → Except Unit WatchDecl
  | .arrW ws, e => .ok (.arrW (ws ++ [e]))
  | _, _ => .error ()

/-- The decorator's full treatment of `options.watch[key]`: normalize, then
push the cache watcher. -/
def installWatcher (d : WatchDecl) (cacheOptions : Option CacheOptions) (hid : Nat) :
    Except Unit WatchDecl :=
  pushWatch (normalizeWatch d) (cacheWatchEntry cacheOptions hid)

/-- Left-biased choice on optional values (`a` if present, else `b`). -/
def optOr : Option JsValue → Option JsValue → Option JsValue
  | some a, _ => some a
  | none, b => b

/-- No object reference identity occurs in both values: mutating one can
never be observed through the other. -/
def idsDisjoint (a b : JsValue) : Bool :=
  (objIds a).all (fun i => decide (i ∉ objIds b))

example : makeKey none (some "vue-component-12-Table") "filter" = "Table[filter]" := rfl
example : makeKey none (some "x-vue-component-1-y") "p" = "x-y[p]" := rfl
example : specResolveKey none (some "x-vue-component-1-y") "p" = "x-vue-component-1-y[p]" := rfl
example : makeKey none (some "vue-component-7-") "p" = "vue-component-7-[p]" := rfl
example : makeKey (some (CacheOptions.mk none (some "MyKey") none none)) (some "Tbl") "p"
    = "MyKey" := rfl
example : makeKey (some (CacheOptions.mk none (some "") none none)) (some "Tbl") "p"
    = "Tbl[p]" := rfl
example : makeKey none none "p" = "p" := rfl
example : installWatcher (.objW (WatchHandlerEntry.mk false false 1)) none 9
    = .ok (.arrW [WatchHandlerEntry.mk false false 1, WatchHandlerEntry.mk true false 9]) := rfl
example : installWatcher (.fnW 1) none 9 = .error () := rfl

example : deepEq (.obj 1 [("a", .num 2)]) (.obj 3 [("a", .num 2)]) = true := rfl
example : (cloneDeep (.obj 1 [("a", .obj 2 [])]) 10).1 = .obj 10 [("a", .obj 11 [])] := rfl
example : objIds (.obj 1 [("a", .obj 2 [])]) = [1, 2] := rfl

/-! ## Helper lemmas about property lookup, assignment and deletion -/

lemma optOr_none_right (a : Option JsValue) : optOr a none = a := by
  cases a <;> rfl

lemma optOr_isSome (a b : Option JsValue) :
    (optOr a b).isSome = (a.isSome || b.isSome) := by
  cases a <;> cases b <;> rfl

lemma getEntry_nil (k : String) : getEntry [] k = none := rfl

lemma getEntry_cons (k1 : String) (v1 : JsValue) (t : List (String × JsValue))
    (k : String) :
    getEntry ((k1, v1) :: t) k = if k1 == k then some v1 else getEntry t k := by
  unfold getEntry
  cases h : (k1 == k) <;> simp [List.find?_cons, h]

lemma getEntry_eq_none_of_not_mem (fs : List (String × JsValue)) (k : String)
    (h : k ∉ fs.map Prod.fst) : getEntry fs k = none := by
  induction fs with
  | nil => rfl
  | cons p t ih =>
    obtain ⟨k1, v1⟩ := p
    simp only [List.map_cons, List.mem_cons, not_or] at h
    rw [getEntry_cons, if_neg (by simpa using Ne.symm h.1)]
    exact ih h.2

lemma getEntry_append (l1 l2 : List (String × JsValue)) (k : String) :
    getEntry (l1 ++ l2) k = optOr (getEntry l1 k) (getEntry l2 k) := by
  induction l1 with
  | nil => simp [getEntry_nil, optOr]
  | cons p t ih =>
    obtain ⟨k1, v1⟩ := p
    rw [List.cons_append, getEntry_cons, getEntry_cons]
    by_cases h : k1 = k
    · rw [if_pos (by simpa using h), if_pos (by simpa using h)]
      rfl
    · rw [if_neg (by simpa using h), if_neg (by simpa using h)]
      exact ih

lemma any_key_iff_mem (fs : List (String × JsValue)) (k : String) :
    fs.any (fun p => p.1 == k) = true ↔ k ∈ fs.map Prod.fst := by
  simp only [List.any_eq_true, List.mem_map, beq_iff_eq]

lemma getEntry_mapUpdate_self (fs : List (String × JsValue)) (k : String)
    (v : JsValue) (hm : k ∈ fs.map Prod.fst) :
    getEntry (fs.map (fun p => if p.1 == k then (p.1, v) else p)) k = some v := by
  induction fs with
  | nil => simp at hm
  | cons p t ih =>
    obtain ⟨k1, v1⟩ := p
    simp only [List.map_cons]
    by_cases h : k1 = k
    · rw [if_pos (by simpa using h), getEntry_cons, if_pos (by simpa using h)]
    · rw [if_neg (by simpa using h), getEntry_cons, if_neg (by simpa using h)]
      apply ih
      simp only [List.map_cons, List.mem_cons] at hm
      rcases hm with h1 | h2
      · exact absurd h1.symm h
      · exact h2

lemma getEntry_mapUpdate_ne (fs : List (String × JsValue)) (k : String)
    (v : JsValue) (k' : String) (h : k' ≠ k) :
    getEntry (fs.map (fun p => if p.1 == k then (p.1, v) else p)) k' =
      getEntry fs k' := by
  induction fs with
  | nil => rfl
  | cons p t ih =>
    obtain ⟨k1, v1⟩ := p
    simp only [List.map_cons]
    by_cases h1 : k1 = k
    · have hne : ((k1 == k') = true) → False := by
        simp only [beq_iff_eq]
        exact fun hh => h (hh.symm.trans h1)
      rw [if_pos (by simpa using h1), getEntry_cons, getEntry_cons, if_neg hne,
        if_neg hne]
      exact ih
    · rw [if_neg (by simpa using h1), getEntry_cons, getEntry_cons]
      by_cases h2 : k1 = k'
      · rw [if_pos (by simpa using h2), if_pos (by simpa using h2)]
      · rw [if_neg (by simpa using h2), if_neg (by simpa using h2)]
        exact ih

lemma getEntry_assignEntry_self (fs : List (String × JsValue)) (k : String)
    (v : JsValue) : getEntry (assignEntry fs k v) k = some v := by
  unfold assignEntry
  by_cases hany : fs.any (fun p => p.1 == k) = true
  · rw [if_pos hany]
    exact getEntry_mapUpdate_self fs k v ((any_key_iff_mem fs k).mp hany)
  · rw [if_neg hany, getEntry_append,
      getEntry_eq_none_of_not_mem fs k (fun hm => hany ((any_key_iff_mem fs k).mpr hm))]
    simp [optOr, getEntry_cons]

lemma getEntry_assignEntry_ne (fs : List (String × JsValue)) (k : String)
    (v : JsValue) (k' : String) (h : k' ≠ k) :
    getEntry (assignEntry fs k v) k' = getEntry fs k' := by
  unfold assignEntry
  by_cases hany : fs.any (fun p => p.1 == k) = true
  · rw [if_pos hany]
    exact getEntry_mapUpdate_ne fs k v k' h
  · rw [if_neg hany, getEntry_append, getEntry_cons,
      if_neg (by simpa using Ne.symm h), getEntry_nil, optOr_none_right]

lemma getEntry_foldAssign (es t : List (String × JsValue)) (k : String)
    (h : (es.map Prod.fst).Nodup) :
    getEntry (es.foldl (fun acc p => assignEntry acc p.1 p.2) t) k =
      optOr (getEntry es k) (getEntry t k) := by
  induction es generalizing t with
  | nil => simp [getEntry_nil, optOr]
  | cons p es ih =>
    obtain ⟨k1, v1⟩ := p
    simp only [List.map_cons, List.nodup_cons] at h
    rw [List.foldl_cons, ih (assignEntry t k1 v1) h.2, getEntry_cons]
    by_cases hk : k1 = k
    · subst hk
      rw [if_pos (by simp),
        getEntry_eq_none_of_not_mem es k1 h.1,
        getEntry_assignEntry_self]
      rfl
    · rw [if_neg (by simpa using hk),
        getEntry_assignEntry_ne t k1 v1 k (Ne.symm hk)]

lemma getEntry_filter_self (fs : List (String × JsValue)) (e : String) :
    getEntry (fs.filter (fun p => p.1 != e)) e = none := by
  induction fs with
  | nil => rfl
  | cons p t ih =>
    obtain ⟨k1, v1⟩ := p
    by_cases h : k1 = e
    · rw [List.filter_cons, if_neg (by simpa using h)]
      exact ih
    · rw [List.filter_cons, if_pos (by simpa using h), getEntry_cons,
        if_neg (by simpa using h)]
      exact ih

lemma getEntry_filter_ne (fs : List (String × JsValue)) (e k : String)
    (h : k ≠ e) :
    getEntry (fs.filter (fun p => p.1 != e)) k = getEntry fs k := by
  induction fs with
  | nil => rfl
  | cons p t ih =>
    obtain ⟨k1, v1⟩ := p
    by_cases h1 : k1 = e
    · rw [List.filter_cons, if_neg (by simpa using h1), getEntry_cons,
        if_neg (by simpa using fun hh : k1 = k => h (hh ▸ h1))]
      exact ih
    · rw [List.filter_cons, if_pos (by simpa using h1), getEntry_cons, getEntry_cons]
      by_cases h2 : k1 = k
      · rw [if_pos (by simpa using h2), if_pos (by simpa using h2)]
      · rw [if_neg (by simpa using h2), if_neg (by simpa using h2)]
        exact ih

lemma foldDelete_obj (es : List String) (i : Nat) (l : List (String × JsValue)) :
    es.foldl (fun acc e => deleteField acc e) (.obj i l) =
      JsValue.obj i (es.foldl (fun fs e => fs.filter (fun p => p.1 != e)) l) := by
  induction es generalizing l with
  | nil => rfl
  | cons e es ih =>
    rw [List.foldl_cons, List.foldl_cons]
    exact ih (l.filter (fun p => p.1 != e))

lemma getEntry_foldFilter (es : List String) (l : List (String × JsValue))
    (k : String) :
    getEntry (es.foldl (fun fs e => fs.filter (fun p => p.1 != e)) l) k =
      if k ∈ es then none else getEntry l k := by
  induction es generalizing l with
  | nil => simp
  | cons e es ih =>
    rw [List.foldl_cons, ih (l.filter (fun p => p.1 != e))]
    by_cases hk : k ∈ es
    · simp [hk]
    · rw [if_neg hk]
      by_cases he : k = e
      · subst he
        rw [if_pos (List.mem_cons_self k es), getEntry_filter_self]
      · rw [if_neg (by simp [he, hk]), getEntry_filter_ne l e k he]

lemma deepEqFields_getEntry (l1 l2 : List (String × JsValue))
    (h : deepEqFields l1 l2 = true) (k : String) :
    optDeepEq (getEntry l1 k) (getEntry l2 k) = true := by
  induction l1 generalizing l2 with
  | nil =>
    cases l2 with
    | nil => rfl
    | cons q t2 => simp [deepEqFields] at h
  | cons p t1 ih =>
    cases l2 with
    | nil => obtain ⟨k1, v1⟩ := p; simp [deepEqFields] at h
    | cons q t2 =>
      obtain ⟨k1, v1⟩ := p
      obtain ⟨k2, v2⟩ := q
      simp only [deepEqFields, Bool.and_eq_true, beq_iff_eq] at h
      obtain ⟨⟨hk, hv⟩, ht⟩ := h
      subst hk
      rw [getEntry_cons, getEntry_cons]
      by_cases h1 : k1 = k
      · rw [if_pos (by simpa using h1), if_pos (by simpa using h1)]
        exact hv
      · rw [if_neg (by simpa using h1), if_neg (by simpa using h1)]
        exact ih t2 ht

mutual

theorem cloneDeep_deepEq (v : JsValue) (n : Nat) :
    deepEq (cloneDeep v n).1 v = true :=
  match v with
  | .undef => rfl
  | .null => rfl
  | .num a => by simp [cloneDeep, deepEq]
  | .str s => by simp [cloneDeep, deepEq]
  | .bool b => by simp [cloneDeep, deepEq]
  | .obj _ fs => by
    simp only [cloneDeep, deepEq]
    exact cloneFields_deepEqFields fs (n + 1)

theorem cloneFields_deepEqFields (fs : List (String × JsValue)) (n : Nat) :
    deepEqFields (cloneFields fs n).1 fs = true :=
  match fs with
  | [] => rfl
  | (k, v) :: t => by
    simp only [cloneFields, deepEqFields, Bool.and_eq_true, beq_iff_eq]
    exact ⟨⟨trivial, cloneDeep_deepEq v n⟩, cloneFields_deepEqFields t (cloneDeep v n).2⟩

end

mutual

theorem cloneDeep_ids (v : JsValue) (n : Nat) :
    (∀ i ∈ objIds (cloneDeep v n).1, n ≤ i) ∧ n ≤ (cloneDeep v n).2 :=
  match v with
  | .undef => ⟨by simp [cloneDeep, objIds], le_refl n⟩
  | .null => ⟨by simp [cloneDeep, objIds], le_refl n⟩
  | .num a => ⟨by simp [cloneDeep, objIds], le_refl n⟩
  | .str s => ⟨by simp [cloneDeep, objIds], le_refl n⟩
  | .bool b => ⟨by simp [cloneDeep, objIds], le_refl n⟩
  | .obj _ fs => by
    have h := cloneFields_ids fs (n + 1)
    constructor
    · intro i hi
      simp only [cloneDeep, objIds, List.mem_cons] at hi
      rcases hi with h1 | h2
      · exact le_of_eq h1.symm
      · exact le_of_lt (Nat.lt_of_succ_le (h.1 i h2))
    · exact le_of_lt (Nat.lt_of_succ_le (by simpa [cloneDeep] using h.2))

theorem cloneFields_ids (fs : List (String × JsValue)) (n : Nat) :
    (∀ i ∈ objIdsFields (cloneFields fs n).1, n ≤ i) ∧ n ≤ (cloneFields fs n).2 :=
  match fs with
  | [] => ⟨by simp [cloneFields, objIdsFields], le_refl n⟩
  | (k, v) :: t => by
    have hv := cloneDeep_ids v n
    have ht := cloneFields_ids t (cloneDeep v n).2
    constructor
    · intro i hi
      simp only [cloneFields, objIdsFields, List.mem_append] at hi
      rcases hi with h1 | h2
      · exact hv.1 i h1
      · exact le_trans hv.2 (ht.1 i h2)
    · simpa [cloneFields] using le_trans hv.2 ht.2

end

lemma truthy_cloneDeep (v : JsValue) (n : Nat) :
    truthy (cloneDeep v n).1 = truthy v := by
  cases v <;> rfl

lemma objIdsFields_filter_sub (l : List (String × JsValue))
    (p : String × JsValue → Bool) (i : Nat)
    (h : i ∈ objIdsFields (l.filter p)) : i ∈ objIdsFields l := by
  induction l with
  | nil => simpa using h
  | cons q t ih =>
    obtain ⟨k1, v1⟩ := q
    rw [List.filter_cons] at h
    by_cases hp : p (k1, v1) = true
    · rw [if_pos hp] at h
      simp only [objIdsFields, List.mem_append] at h ⊢
      rcases h with h1 | h2
      · exact Or.inl h1
      · exact Or.inr (ih h2)
    · rw [if_neg hp] at h
      simp only [objIdsFields, List.mem_append]
      exact Or.inr (ih h)

lemma objIds_deleteField_sub (v : JsValue) (k : String) (i : Nat)
    (h : i ∈ objIds (deleteField v k)) : i ∈ objIds v := by
  cases v with
  | obj id fs =>
    simp only [deleteField, objIds, List.mem_cons] at h ⊢
    rcases h with h1 | h2
    · exact Or.inl h1
    · exact Or.inr (objIdsFields_filter_sub fs _ i h2)
  | undef => exact h
  | null => exact h
  | num n => exact h
  | str s => exact h
  | bool b => exact h

lemma objIds_foldl_sub (g : JsValue → String → JsValue)
    (hg : ∀ a p i, i ∈ objIds (g a p) → i ∈ objIds a)
    (props : List String) (v : JsValue) (i : Nat)
    (h : i ∈ objIds (props.foldl g v)) : i ∈ objIds v := by
  induction props generalizing v with
  | nil => simpa using h
  | cons p ps ih => exact hg v p i (ih (g v p) h)

lemma purgeExceptList_skip (v : JsValue) (arg : Option StrOrList) (fresh : Nat)
    (h : optTruthy arg = false ∨ truthy v = false) :
    purgeExceptList v arg fresh = (cloneDeep v fresh).1 := by
  unfold purgeExceptList
  rw [if_neg]
  rw [truthy_cloneDeep]
  rcases h with h | h <;> simp [h]

lemma purgeOnlyList_skip (v : JsValue) (arg : Option StrOrList) (fresh : Nat)
    (h : optTruthy arg = false ∨ truthy v = false) :
    purgeOnlyList v arg fresh = (cloneDeep v fresh).1 := by
  unfold purgeOnlyList
  rw [if_neg]
  rw [truthy_cloneDeep]
  rcases h with h | h <;> simp [h]

lemma objIds_purgeExceptList_ge (v : JsValue) (arg : Option StrOrList) (fresh : Nat)
    (i : Nat) (h : i ∈ objIds (purgeExceptList v arg fresh)) : fresh ≤ i := by
  have hclone : ∀ j ∈ objIds (cloneDeep v fresh).1, fresh ≤ j := (cloneDeep_ids v fresh).1
  match arg with
  | none =>
    rw [purgeExceptList_skip v none fresh (Or.inl rfl)] at h
    exact hclone i h
  | some (.single e) =>
    simp only [purgeExceptList] at h
    split at h
    · exact hclone i (objIds_deleteField_sub _ e i h)
    · exact hclone i h
  | some (.list es) =>
    simp only [purgeExceptList] at h
    split at h
    · exact hclone i (objIds_foldl_sub (fun acc e => deleteField acc e)
        (fun a p j => objIds_deleteField_sub a p j) es _ i h)
    · exact hclone i h

lemma objIds_purgeOnlyList_ge (v : JsValue) (arg : Option StrOrList) (fresh : Nat)
    (i : Nat) (h : i ∈ objIds (purgeOnlyList v arg fresh)) : fresh ≤ i := by
  have hclone : ∀ j ∈ objIds (cloneDeep v fresh).1, fresh ≤ j := (cloneDeep_ids v fresh).1
  match arg with
  | none =>
    rw [purgeOnlyList_skip v none fresh (Or.inl rfl)] at h
    exact hclone i h
  | some (.single o) =>
    simp only [purgeOnlyList] at h
    split at h
    · refine hclone i (objIds_foldl_sub _ ?_ _ _ i h)
      intro a p j hj
      by_cases hc : (p != o) = true
      · rw [if_pos hc] at hj; exact objIds_deleteField_sub a p j hj
      · rw [if_neg hc] at hj; exact hj
    · exact hclone i h
  | some (.list os) =>
    simp only [purgeOnlyList] at h
    split at h
    · refine hclone i (objIds_foldl_sub _ ?_ _ _ i h)
      intro a p j hj
      by_cases hc : jsFoundTruthy (os.find? (fun o => o == p)) = true
      · rw [if_pos hc] at hj; exact hj
      · rw [if_neg hc] at hj; exact objIds_deleteField_sub a p j hj
    · exact hclone i h

/-! ## Helper lemmas about key derivation -/

lemma dropLead_append (p l : List Char) : dropLead p (p ++ l) = some l := by
  induction p with
  | nil => rfl
  | cons c cs ih => simp [dropLead, ih]

lemma takeWhile_digits (l1 t : List Char) (h : l1.all Char.isDigit = true) :
    (l1 ++ '-' :: t).takeWhile Char.isDigit = l1 ∧
    (l1 ++ '-' :: t).dropWhile Char.isDigit = '-' :: t := by
  induction l1 with
  | nil => constructor <;> rfl
  | cons c cs ih =>
    simp only [List.all_cons, Bool.and_eq_true] at h
    obtain ⟨hc, hcs⟩ := h
    have := ih hcs
    constructor
    · rw [List.cons_append, List.takeWhile_cons, if_pos hc, this.1]
    · rw [List.cons_append, List.dropWhile_cons, if_pos hc, this.2]

lemma matchVcAt_exact (ds t : List Char) (hne : ds ≠ [])
    (hd : ds.all Char.isDigit = true) :
    matchVcAt (vcPat ++ (ds ++ '-' :: t)) = some t := by
  simp only [matchVcAt, dropLead_append, (takeWhile_digits ds t hd).1,
    (takeWhile_digits ds t hd).2]
  simp [hne]

lemma replaceVcFirst_of_match (c : Char) (cs tail : List Char)
    (h : matchVcAt (c :: cs) = some tail) :
    replaceVcFirst (c :: cs) = tail := by
  unfold replaceVcFirst
  rw [h]

lemma replaceVcFirst_no_match (cs : List Char) (h : hasVcMatch cs = false) :
    replaceVcFirst cs = cs := by
  induction cs with
  | nil => rfl
  | cons c t ih =>
    unfold hasVcMatch at h
    cases hm : matchVcAt (c :: t) with
    | some x =>
      rw [hm] at h
      simp at h
    | none =>
      rw [hm] at h
      simp only [Option.isSome_none, Bool.false_or] at h
      unfold replaceVcFirst
      rw [hm, ih h]

lemma makeKey_falsy_ck (o : Option CacheOptions) (tag : Option String) (key : String)
    (h : jsFoundTruthy (o.bind (fun c => c.cacheKey)) = false) :
    makeKey o tag key = makeKeyFromTag tag key := by
  unfold makeKey
  cases hck : o.bind (fun c => c.cacheKey) with
  | none => rfl
  | some ck =>
    rw [hck] at h
    simp only [jsFoundTruthy] at h
    show (if ck == "" then makeKeyFromTag tag key else ck) = makeKeyFromTag tag key
    rw [if_pos (by simpa using h)]

lemma string_ne_empty_toList (s : String) (h : s ≠ "") : s.toList ≠ [] := by
  intro hl
  exact h (by ext1; simpa using hl)

lemma makeKeyFromTag_of_replace (t key : String) (ht : t ≠ "")
    (nm : List Char) (harep : replaceVcFirst t.data = nm) (hne : nm ≠ []) :
    makeKeyFromTag (some t) key = String.mk nm ++ "[" ++ key ++ "]" := by
  have ht' : (t == "") = false := by simpa using ht
  simp [makeKeyFromTag, ht', String.toList, harep, hne]

lemma makeKeyFromTag_of_replace_empty (t key : String) (ht : t ≠ "")
    (harep : replaceVcFirst t.data = []) :
    makeKeyFromTag (some t) key = t ++ "[" ++ key ++ "]" := by
  have ht' : (t == "") = false := by simpa using ht
  simp [makeKeyFromTag, ht', String.toList, harep]

lemma replaceVcFirst_head_match (cs tail : List Char) (hne : cs ≠ [])
    (h : matchVcAt cs = some tail) : replaceVcFirst cs = tail := by
  match cs with
  | [] => exact absurd rfl hne
  | c :: cs' =>
    unfold replaceVcFirst
    rw [h]
/-! ## Claim theorems -/

/-- C1 counterexample: with stored text `5` (a scalar) and object default
`{a: 1}`, the restore does not set `5`.  The branch is chosen by the type
of the DEFAULT value — an object here — so the merge branch runs and the
final property value is deep-equal to `{a: 1}`, not to the stored scalar
`5` the claim demands. -/
theorem created_scalar_stored_counterexample :
    createdHook (some (.valid (.num 5))) (.obj 0 [("a", .num 1)]) 7
        = .ok (.obj 7 [("a", .num 1)]) ∧
    deepEq (.obj 7 [("a", .num 1)]) (.num 5) = false ∧
    deepEq (.obj 7 [("a", .num 1)]) (.obj 0 [("a", .num 1)]) = true :=
  ⟨rfl, rfl, rfl⟩

/-- C1 (amended): the no-merge replacement branch of the restore is selected
by the type of the DEFAULT value, not of the stored one: whenever the
default value's `typeof` is one of undefined/number/string/boolean, or the
coalesced value is literally `null`, the coalesced stored value is set onto
the property unchanged, with no structural merge; a scalar stored value
with an object default instead goes through the merge branch (where a
number contributes no enumerable fields, so the default survives). -/
theorem created_scalar_branch_on_default (stored : Option StoredText)
    (cur parsed : JsValue) (fresh : Nat)
    (hp : jsonParse stored = Except.ok parsed)
    (h : simpleTypes.contains (jsTypeof cur) = true ∨
      isNull (jsCoalesce parsed cur) = true) :
    createdHook stored cur fresh = Except.ok (jsCoalesce parsed cur) := by
  simp only [createdHook]
  rw [hp]
  show (if simpleTypes.contains (jsTypeof cur) || isNull (jsCoalesce parsed cur)
      then Except.ok (jsCoalesce parsed cur)
      else Except.ok (merge cur (jsCoalesce parsed cur) fresh))
    = Except.ok (jsCoalesce parsed cur)
  rcases h with h | h
  · rw [h, Bool.true_or, if_pos rfl]
  · rw [h, Bool.or_true, if_pos rfl]

/-- Witness for C1's amended theorem: stored `5` over the scalar default
`42` is set unchanged. -/
theorem created_scalar_branch_on_default_witness :
    createdHook (some (.valid (.num 5))) (.num 42) 3 = Except.ok (.num 5) :=
  created_scalar_branch_on_default (some (.valid (.num 5))) (.num 42) (.num 5) 3 rfl
    (Or.inl (by decide))

/-- C2 counterexample: with no filtering configured, the modifier selected
by the decorator is the identity `v => v`; on the object `{a: 1}` with
reference identity 3 it returns the very same reference (same root
identity), contradicting the claim that the result "is not the same
reference". -/
theorem modifier_none_same_reference :
    applyModifier none (.obj 3 [("a", .num 1)]) 10 = .obj 3 [("a", .num 1)] ∧
    sameRef (applyModifier none (.obj 3 [("a", .num 1)]) 10)
      (.obj 3 [("a", .num 1)]) = true :=
  ⟨rfl, rfl⟩

/-- C2 (amended): with no truthy `except`/`only` option the value filter is
the identity: it returns the input value itself — trivially deep-equal, but
the very same reference, not an independent copy (the source stringifies
the value synchronously, so no copy is taken in this branch). -/
theorem modifier_none_identity (o : Option CacheOptions) (v : JsValue) (fresh : Nat)
    (h : noFilterConfigured o = true) :
    applyModifier o v fresh = v := by
  match o with
  | none => rfl
  | some co =>
    cases hex : optTruthy co.except with
    | true => simp only [noFilterConfigured, hex] at h; simp at h
    | false =>
      cases hon : optTruthy co.only with
      | true => simp only [noFilterConfigured, hon] at h; simp at h
      | false => simp [applyModifier, hex, hon]

/-- Witness for C2's amended theorem on a concrete object. -/
theorem modifier_none_identity_witness :
    applyModifier (some (CacheOptions.mk none none none none))
      (.obj 3 [("a", .num 1)]) 10 = .obj 3 [("a", .num 1)] :=
  modifier_none_identity (some (CacheOptions.mk none none none none))
    (.obj 3 [("a", .num 1)]) 10 (by decide)

/-- C3 counterexample: a stored string that is not valid JSON makes the
restore throw (there is no try/catch around `JSON.parse` in the source):
`created` raises the parse error to its caller instead of falling back to
the default value. -/
theorem created_invalid_json_error :
    createdHook (some .invalid) (.obj 0 [("a", .num 1)]) 1 = .error () := rfl

/-- C3 (amended): a stored string that is not valid JSON makes `JSON.parse`
throw inside `created` and the error propagates to the caller; only an
ABSENT stored value (`getItem` returning `null`, which `JSON.parse` turns
into `null` and the `??` operator replaces by the default) completes the
restore without an error. -/
theorem created_parse_error_propagates (cur : JsValue) (fresh : Nat) :
    createdHook (some .invalid) cur fresh = .error () ∧
    isOkResult (createdHook none cur fresh) = true := by
  refine ⟨rfl, ?_⟩
  simp only [createdHook, jsonParse]
  split
  · rfl
  · rfl

/-- C4: the watcher object pushed by the decorator has `deep` hardcoded to
`true` and does not depend on the options object in any way — the source
`CacheOptions` type has no `deep` field, so the `deep` option documented in
the README (default `true`, supposedly configurable) can never make the
observer shallow. -/
theorem watch_entry_always_deep (o o2 : Option CacheOptions) (hid : Nat) :
    (cacheWatchEntry o hid).deep = true ∧
    (cacheWatchEntry o hid).immediate = false ∧
    cacheWatchEntry o hid = cacheWatchEntry o2 hid :=
  ⟨rfl, rfl, rfl⟩

/-- C5: when both the stored value and the default value are objects, the
restore sets `merge(default, stored)`: its key set is the union of the two
key sets, the stored field wins on every key the stored value has, and the
default supplies every remaining key. -/
theorem created_object_merge_union (did sid fresh : Nat)
    (dfs sfs : List (String × JsValue)) (k : String)
    (hd : (dfs.map Prod.fst).Nodup) (hs : (sfs.map Prod.fst).Nodup) :
    createdHook (some (.valid (.obj sid sfs))) (.obj did dfs) fresh
        = Except.ok (merge (.obj did dfs) (.obj sid sfs) fresh) ∧
    (getProp (merge (.obj did dfs) (.obj sid sfs) fresh) k).isSome
        = ((getEntry sfs k).isSome || (getEntry dfs k).isSome) ∧
    ((getEntry sfs k).isSome = true →
      getProp (merge (.obj did dfs) (.obj sid sfs) fresh) k = getEntry sfs k) ∧
    ((getEntry sfs k).isSome = false →
      getProp (merge (.obj did dfs) (.obj sid sfs) fresh) k = getEntry dfs k) := by
  have hbase : ∀ k', getEntry (objAssign [] (JsValue.obj did dfs)) k'
      = getEntry dfs k' := by
    intro k'
    show getEntry (dfs.foldl (fun acc p => assignEntry acc p.1 p.2) []) k'
      = getEntry dfs k'
    rw [getEntry_foldAssign dfs [] k' hd, getEntry_nil, optOr_none_right]
  have hmain : getProp (merge (.obj did dfs) (.obj sid sfs) fresh) k
      = optOr (getEntry sfs k) (getEntry dfs k) := by
    show getEntry
      (sfs.foldl (fun acc p => assignEntry acc p.1 p.2)
        (objAssign [] (JsValue.obj did dfs))) k = _
    rw [getEntry_foldAssign sfs _ k hs, hbase k]
  refine ⟨rfl, ?_, ?_, ?_⟩
  · rw [hmain, optOr_isSome]
  · intro hS
    cases hE : getEntry sfs k with
    | none => rw [hE] at hS; simp at hS
    | some a => rw [hmain, hE]; rfl
  · intro hS
    cases hE : getEntry sfs k with
    | some a => rw [hE] at hS; simp at hS
    | none => rw [hmain, hE]; rfl

/-- Witness for C5 at the spec's own example: restoring stored `{b: 9}`
over default `{a: 1, b: 2}` gives a value whose field `b` is the stored
`9`. -/
theorem created_object_merge_union_witness :
    getProp (merge (.obj 0 [("a", .num 1), ("b", .num 2)]) (.obj 1 [("b", .num 9)]) 5)
      "b" = some (.num 9) := by
  have h := created_object_merge_union 0 1 5 [("a", .num 1), ("b", .num 2)]
    [("b", .num 9)] "b" (by decide) (by decide)
  rw [h.2.2.1 (by decide)]
  rfl

/-- C6 counterexample: the claim fails on two concrete inputs.  (1) The
regex of the source is not anchored: on tag `"x-vue-component-1-y"`, where
`vue-component-1-` occurs but not as a prefix, the source strips the inner
occurrence and resolves `"x-y[p]"`, while the claim's prefix-stripping
reading (formalized by `specResolveKey`) keeps the tag whole.  (2) An
explicitly configured empty-string `cacheKey` is falsy and is NOT returned
unchanged: the source falls through to tag derivation. -/
theorem makeKey_claim_counterexample :
    makeKey none (some "x-vue-component-1-y") "p" = "x-y[p]" ∧
    specResolveKey none (some "x-vue-component-1-y") "p"
      = "x-vue-component-1-y[p]" ∧
    makeKey (some (CacheOptions.mk none (some "") none none)) (some "Table") "p"
      = "Table[p]" ∧
    specResolveKey (some "") (some "Table") "p" = "" ∧
    ("x-y[p]" : String) ≠ "x-vue-component-1-y[p]" ∧
    ("Table[p]" : String) ≠ "" :=
  ⟨rfl, rfl, rfl, rfl, by decide, by decide⟩

/-- C6 (amended): key resolution returns a configured `cacheKey` unchanged
when it is present and non-empty (an empty string is falsy and is treated
as absent); with no usable `cacheKey`, a `null`/absent or empty tag
resolves to the bare property name; otherwise the identity is the tag with
the FIRST occurrence of `vue-component-<digits>-` removed — anywhere in the
tag, not only as a prefix — falling back to the raw tag when the removal
leaves the empty string, and the key is `identity ++ "[" ++ name ++ "]"`. -/
theorem makeKey_resolution_amended (o : Option CacheOptions) (tag : Option String)
    (key ck t ds rest : String) :
    (o.bind (fun c => c.cacheKey) = some ck → ck ≠ "" → makeKey o tag key = ck) ∧
    (jsFoundTruthy (o.bind (fun c => c.cacheKey)) = false →
      ((tag = none ∨ tag = some "") → makeKey o tag key = key) ∧
      (tag = some t → t ≠ "" → hasVcMatch t.data = false →
        makeKey o tag key = t ++ "[" ++ key ++ "]") ∧
      (tag = some ("vue-component-" ++ ds ++ "-" ++ rest) → ds ≠ "" →
        ds.data.all Char.isDigit = true → rest ≠ "" →
        makeKey o tag key = rest ++ "[" ++ key ++ "]") ∧
      (tag = some ("vue-component-" ++ ds ++ "-") → ds ≠ "" →
        ds.data.all Char.isDigit = true →
        makeKey o tag key = ("vue-component-" ++ ds ++ "-") ++ "[" ++ key ++ "]")) := by
  have hvc : vcPat ≠ [] := by decide
  constructor
  · intro hck hne
    unfold makeKey
    rw [hck]
    show (if ck == "" then makeKeyFromTag tag key else ck) = ck
    rw [if_neg (by simpa using hne)]
  · intro hfalsy
    rw [makeKey_falsy_ck o tag key hfalsy]
    refine ⟨?_, ?_, ?_, ?_⟩
    · rintro (rfl | rfl) <;> rfl
    · rintro rfl hne hnm
      rw [makeKeyFromTag_of_replace t key hne t.data
        (replaceVcFirst_no_match t.data hnm) (string_ne_empty_toList t hne)]
    · rintro rfl hds hdig hrest
      have hdata : ("vue-component-" ++ ds ++ "-" ++ rest).data
          = vcPat ++ (ds.data ++ '-' :: rest.data) := by
        simp only [String.data_append, List.append_assoc]
        rfl
      have hdsne : ds.data ≠ [] := string_ne_empty_toList ds hds
      have hmatch : matchVcAt (("vue-component-" ++ ds ++ "-" ++ rest).data)
          = some rest.data := by
        rw [hdata]
        exact matchVcAt_exact ds.data rest.data hdsne hdig
      have hcons : ("vue-component-" ++ ds ++ "-" ++ rest).data ≠ [] := by
        rw [hdata]
        simp [hvc]
      have hrep : replaceVcFirst (("vue-component-" ++ ds ++ "-" ++ rest).data)
          = rest.data :=
        replaceVcFirst_head_match _ _ hcons hmatch
      have htne : ("vue-component-" ++ ds ++ "-" ++ rest) ≠ "" := by
        intro hcon
        rw [hcon] at hcons
        exact hcons rfl
      rw [makeKeyFromTag_of_replace _ key htne rest.data hrep
        (string_ne_empty_toList rest hrest)]
    · rintro rfl hds hdig
      have hdata : ("vue-component-" ++ ds ++ "-").data
          = vcPat ++ (ds.data ++ '-' :: []) := by
        simp only [String.data_append, List.append_assoc]
        rfl
      have hdsne : ds.data ≠ [] := string_ne_empty_toList ds hds
      have hmatch : matchVcAt (("vue-component-" ++ ds ++ "-").data) = some [] := by
        rw [hdata]
        exact matchVcAt_exact ds.data [] hdsne hdig
      have hcons : ("vue-component-" ++ ds ++ "-").data ≠ [] := by
        rw [hdata]
        simp [hvc]
      have hrep : replaceVcFirst (("vue-component-" ++ ds ++ "-").data) = [] :=
        replaceVcFirst_head_match _ _ hcons hmatch
      have htne : ("vue-component-" ++ ds ++ "-") ≠ "" := by
        intro hcon
        rw [hcon] at hcons
        exact hcons rfl
      exact makeKeyFromTag_of_replace_empty _ key htne hrep

/-- Witness for C6's amended theorem: an auto-generated tag resolves to the
component name with the wrapper removed. -/
theorem makeKey_resolution_amended_witness :
    makeKey none (some "vue-component-12-Table") "filter" = "Table[filter]" := by
  have h := makeKey_resolution_amended none (some "vue-component-12-Table") "filter"
    "k" "t" "12" "Table"
  have h2 := (h.2 (by decide)).2.2.1 (by decide) (by decide) (by decide) (by decide)
  exact h2

/-- C7: when both `except` and `only` are truthy, the mutually-exclusive
configuration error condition holds (the source logs it, non-fatally) and
the selected modifier is deterministically `purgeExceptList` — the `except`
branch is checked first, so `except` takes precedence over `only`. -/
theorem both_filters_except_precedence (o : CacheOptions) (v : JsValue) (fresh : Nat)
    (h1 : optTruthy o.except = true) (h2 : optTruthy o.only = true) :
    bothFiltersConfigured (some o) = true ∧
    applyModifier (some o) v fresh = purgeExceptList v o.except fresh := by
  constructor
  · simp [bothFiltersConfigured, h1, h2]
  · simp [applyModifier, h1]

/-- Witness for C7 at a concrete options object with both lists set. -/
theorem both_filters_except_precedence_witness :
    bothFiltersConfigured
        (some (CacheOptions.mk none none (some (.list ["a"])) (some (.list ["b"]))))
      = true ∧
    applyModifier
        (some (CacheOptions.mk none none (some (.list ["a"])) (some (.list ["b"]))))
        (.obj 0 [("a", .num 1)]) 5
      = purgeExceptList (.obj 0 [("a", .num 1)]) (some (.list ["a"])) 5 :=
  both_filters_except_precedence
    (CacheOptions.mk none none (some (.list ["a"])) (some (.list ["b"])))
    (.obj 0 [("a", .num 1)]) 5 (by decide) (by decide)

/-- C8: filtering an object value with an `except` list removes every listed
top-level field and keeps every other top-level field with a value
deep-equal to the original (the clone refreshes reference identities); a
listed name that the value lacks needs no special case — the theorem holds
for arbitrary lists. -/
theorem purgeExceptList_removes_listed (id fresh : Nat)
    (fs : List (String × JsValue)) (es : List String) (k : String) :
    (k ∈ es → getProp (purgeExceptList (.obj id fs) (some (.list es)) fresh) k = none) ∧
    (k ∉ es →
      optDeepEq (getProp (purgeExceptList (.obj id fs) (some (.list es)) fresh) k)
        (getProp (.obj id fs) k) = true) := by
  have hres : purgeExceptList (JsValue.obj id fs) (some (.list es)) fresh
      = JsValue.obj fresh (es.foldl (fun l e => l.filter (fun p => p.1 != e))
          (cloneFields fs (fresh + 1)).1) :=
    foldDelete_obj es fresh (cloneFields fs (fresh + 1)).1
  constructor
  · intro hk
    rw [hres]
    show getEntry (es.foldl (fun l e => l.filter (fun p => p.1 != e))
      (cloneFields fs (fresh + 1)).1) k = none
    rw [getEntry_foldFilter, if_pos hk]
  · intro hk
    rw [hres]
    show optDeepEq (getEntry (es.foldl (fun l e => l.filter (fun p => p.1 != e))
      (cloneFields fs (fresh + 1)).1) k) (getEntry fs k) = true
    rw [getEntry_foldFilter, if_neg hk]
    exact deepEqFields_getEntry _ fs (cloneFields_deepEqFields fs (fresh + 1)) k

/-- Witness for C8: the listed field `a` is gone after filtering. -/
theorem purgeExceptList_removes_listed_witness :
    getProp (purgeExceptList (.obj 0 [("a", .num 1), ("b", .num 2)])
      (some (.list ["a"])) 3) "a" = none :=
  (purgeExceptList_removes_listed 0 3 [("a", .num 1), ("b", .num 2)] ["a"] "a").1
    (by decide)

/-- C9 counterexample: a pre-existing watcher declared in FUNCTION form (a
legal Vue watcher) has `typeof` `"function"`, so the normalization at lines
98–102 leaves it untouched and the `.push` at line 124 is called on a
function — a TypeError, not an append: the existing handler does not keep
firing; the component fails to set up. -/
theorem install_watcher_function_counterexample :
    installWatcher (.fnW 0) none 1 = .error () := rfl

/-- C9 (amended): when the pre-existing `watch` entry for the property is
absent, a single watcher object, or an array of watchers, the decorator
appends its own handler after all existing ones and never replaces any;
a function-form (or string-form) watcher entry, however, is not normalized
to an array and the append throws. -/
theorem install_watcher_appends (w : WatchHandlerEntry) (ws : List WatchHandlerEntry)
    (o : Option CacheOptions) (hid : Nat) :
    installWatcher .undef o hid = .ok (.arrW [cacheWatchEntry o hid]) ∧
    installWatcher (.objW w) o hid = .ok (.arrW [w, cacheWatchEntry o hid]) ∧
    installWatcher (.arrW ws) o hid = .ok (.arrW (ws ++ [cacheWatchEntry o hid])) :=
  ⟨rfl, rfl, rfl⟩

/-- C10: both purge functions always start from a deep clone — whatever the
`except`/`only` argument and the value: no object reference of the result
occurs in the input (so the result never aliases it), and whenever the
deletion pass is skipped (absent/falsy argument or falsy value) the result
is structurally equal to the input. -/
theorem purge_always_clones (v : JsValue) (arg : Option StrOrList) (fresh : Nat)
    (h : ∀ i ∈ objIds v, i < fresh) :
    idsDisjoint (purgeExceptList v arg fresh) v = true ∧
    idsDisjoint (purgeOnlyList v arg fresh) v = true ∧
    (optTruthy arg = false ∨ truthy v = false →
      deepEq (purgeExceptList v arg fresh) v = true ∧
      deepEq (purgeOnlyList v arg fresh) v = true) := by
  have hdis : ∀ (r : JsValue), (∀ i ∈ objIds r, fresh ≤ i) →
      idsDisjoint r v = true := by
    intro r hr
    rw [idsDisjoint, List.all_eq_true]
    intro i hi
    rw [decide_eq_true_eq]
    intro hmem
    exact absurd (h i hmem) (not_lt.mpr (hr i hi))
  refine ⟨hdis _ (fun i hi => objIds_purgeExceptList_ge v arg fresh i hi),
    hdis _ (fun i hi => objIds_purgeOnlyList_ge v arg fresh i hi), ?_⟩
  intro hskip
  rw [purgeExceptList_skip v arg fresh hskip, purgeOnlyList_skip v arg fresh hskip]
  exact ⟨cloneDeep_deepEq v fresh, cloneDeep_deepEq v fresh⟩

/-- Witness for C10 on a concrete object whose identities all lie below the
allocation counter. -/
theorem purge_always_clones_witness :
    idsDisjoint (purgeExceptList (.obj 0 [("a", .num 1)]) none 5)
      (.obj 0 [("a", .num 1)]) = true ∧
    idsDisjoint (purgeOnlyList (.obj 0 [("a", .num 1)]) none 5)
      (.obj 0 [("a", .num 1)]) = true ∧
    (optTruthy none = false ∨ truthy (.obj 0 [("a", .num 1)]) = false →
      deepEq (purgeExceptList (.obj 0 [("a", .num 1)]) none 5)
        (.obj 0 [("a", .num 1)]) = true ∧
      deepEq (purgeOnlyList (.obj 0 [("a", .num 1)]) none 5)
        (.obj 0 [("a", .num 1)]) = true) :=
  purge_always_clones (.obj 0 [("a", .num 1)]) none 5 (by decide)

end VueCache
